import Mathlib

set_option linter.unusedSectionVars false

/-!
# Verification of the rate-limiting work queue layer

Shallow embedding of `src/util/workqueue/rate_limiting_queue.go`: the
`rateLimitingType` adapter that wraps a delaying queue and a pluggable
rate limiter.  The adapter itself is translated directly from the Go
source.  Its two collaborators (the delaying queue and the rate limiter
strategies) are declared elsewhere in the repository and are not part of
the given source tree, so they are modelled from the spec's description
of their contracts (each such definition says so in its doc comment).

Go `time.Duration` is an `int64` count of nanoseconds; durations are
modelled as `Int` (overflow plays no role in any claim).  Items are an
arbitrary type with decidable equality, matching Go's
`[T comparable]` constraint.
-/

/-- Durations, as in Go `time.Duration` (integer nanoseconds). -/
abbrev Duration := Int

/-- One second, in nanoseconds. -/
def second : Duration := 1000000000

/-! ## The delaying queue collaborator

Modelled from the spec: the `DelayingInterface` collaborator
(spec §2, §6) is a set-backed FIFO queue of unique items with scheduled
future visibility.  Its state holds the visible FIFO (`queue`), the
dedup set (`dirty`), the in-flight set (`processing`), the scheduled
items with their ready times (`waiting`), a clock reading (`now`) and
the shutdown flags.  `Get` draws from `queue`, so "observable via
`Get()`" is membership in `queue`. -/
structure DelayingQueue (α : Type) where
  now : Int
  queue : List α
  dirty : List α
  processing : List α
  waiting : List (α × Int)
  shuttingDown : Bool
  drain : Bool
  deriving DecidableEq

/-- Result of a `Get` call: an item, the shutdown signal, or the fact
that the call would block (the queue is empty and not shut down). -/
inductive GetResult (α : Type) where
  | item (x : α)
  | shutdown
  | blocked
  deriving DecidableEq

variable {α : Type} [DecidableEq α]

/-- Modelled from the spec: immediate enqueue with duplicate
suppression; a shutting-down queue silently absorbs adds (spec §6, §7). -/
def DelayingQueue.Add (q : DelayingQueue α) (item : α) : DelayingQueue α :=
  if q.shuttingDown then q
  else if item ∈ q.dirty then q
  else if item ∈ q.processing then { q with dirty := item :: q.dirty }
  else { q with dirty := item :: q.dirty, queue := q.queue ++ [item] }

/-- Modelled from the spec: scheduled enqueue; `delay ≤ 0` behaves like
`Add`, otherwise the item becomes visible once the clock reaches
`now + delay`; absorbed if shutting down (spec §6). -/
def DelayingQueue.AddAfter (q : DelayingQueue α) (item : α) (d : Duration) :
    DelayingQueue α :=
  if q.shuttingDown then q
  else if d ≤ 0 then q.Add item
  else { q with waiting := q.waiting ++ [(item, q.now + d)] }

/-- Modelled from the spec: blocking dequeue.  Returns the head of the
visible FIFO and moves it to `processing`; on an empty queue it signals
shutdown or would block (spec §6). -/
def DelayingQueue.Get (q : DelayingQueue α) : DelayingQueue α × GetResult α :=
  match q.queue with
  | [] => (q, if q.shuttingDown then .shutdown else .blocked)
  | x :: rest =>
      ({ q with queue := rest,
                dirty := q.dirty.filter (fun y => decide (y ≠ x)),
                processing := x :: q.processing },
       .item x)

/-- Modelled from the spec: mark processing finished; an item re-added
while in flight is re-queued (spec §6). -/
def DelayingQueue.Done (q : DelayingQueue α) (item : α) : DelayingQueue α :=
  let q' := { q with processing := q.processing.filter (fun y => decide (y ≠ item)) }
  if item ∈ q.dirty then { q' with queue := q'.queue ++ [item] } else q'

/-- Modelled from the spec: number of visible items. -/
def DelayingQueue.Len (q : DelayingQueue α) : Nat := q.queue.length

/-- Modelled from the spec: begin shutdown. -/
def DelayingQueue.ShutDown (q : DelayingQueue α) : DelayingQueue α :=
  { q with shuttingDown := true }

/-- Modelled from the spec: begin shutdown, draining in-flight items. -/
def DelayingQueue.ShutDownWithDrain (q : DelayingQueue α) : DelayingQueue α :=
  { q with shuttingDown := true, drain := true }

/-- Modelled from the spec: whether shutdown has begun. -/
def DelayingQueue.ShuttingDown (q : DelayingQueue α) : Bool := q.shuttingDown

/-- Modelled from the spec: deliver every scheduled item whose ready
time has been reached, through the deduplicating `Add`. -/
def DelayingQueue.deliverDue (q : DelayingQueue α) : DelayingQueue α :=
  let due := q.waiting.filter (fun p => decide (p.2 ≤ q.now))
  let rest := q.waiting.filter (fun p => decide (¬ p.2 ≤ q.now))
  (due.map Prod.fst).foldl DelayingQueue.Add { q with waiting := rest }

/-- Modelled from the spec: advance the injected clock to time `t`,
realising the visibility of every scheduled item that has come due. -/
def DelayingQueue.advanceTo (q : DelayingQueue α) (t : Int) : DelayingQueue α :=
  DelayingQueue.deliverDue { q with now := t }

/-! ## The rate limiter collaborator

Modelled from the spec: the `RateLimiter` interface (spec §6) over a
strategy state `σ`: `When` returns a duration and may update the
per-item bookkeeping, `NumRequeues` is a side-effect-free read,
`Forget` drops the item's tracking state. -/
structure RateLimiter (α σ : Type) where
  When : σ → α → σ × Duration
  NumRequeues : σ → α → Int
  Forget : σ → α → σ

/-! ## The adapter under verification (`rate_limiting_queue.go`) -/

/-- `rateLimitingType` wraps a delaying queue and provides rate-limited
re-enqueuing (source lines 101-106); the field names follow the Go
struct, whose first field is the embedded `DelayingInterface`. -/
structure rateLimitingType (α σ : Type) where
  DelayingInterface : DelayingQueue α
  rateLimiter : σ

variable {σ : Type}

/-- `AddRateLimited` AddAfter's the item based on the time when the rate
limiter says it is ok (source lines 109-111). -/
def rateLimitingType.AddRateLimited (rl : RateLimiter α σ)
    (q : rateLimitingType α σ) (item : α) : rateLimitingType α σ :=
  let p := rl.When q.rateLimiter item
  { DelayingInterface := q.DelayingInterface.AddAfter item p.2,
    rateLimiter := p.1 }

/-- `NumRequeues` delegates to the rate limiter (source lines 113-115);
the state is returned alongside the answer to make "no state change"
expressible. -/
def rateLimitingType.NumRequeues (rl : RateLimiter α σ)
    (q : rateLimitingType α σ) (item : α) : rateLimitingType α σ × Int :=
  (q, rl.NumRequeues q.rateLimiter item)

/-- `Forget` delegates to the rate limiter (source lines 117-119). -/
def rateLimitingType.Forget (rl : RateLimiter α σ)
    (q : rateLimitingType α σ) (item : α) : rateLimitingType α σ :=
  { q with rateLimiter := rl.Forget q.rateLimiter item }

/-! The remaining operations are promoted from the embedded
`DelayingInterface` by Go interface embedding: each is the one-line
delegation that Go's method promotion performs. -/

/-- Promoted `Add`. -/
def rateLimitingType.Add (q : rateLimitingType α σ) (item : α) :
    rateLimitingType α σ :=
  { q with DelayingInterface := q.DelayingInterface.Add item }

/-- Promoted `AddAfter`. -/
def rateLimitingType.AddAfter (q : rateLimitingType α σ) (item : α)
    (d : Duration) : rateLimitingType α σ :=
  { q with DelayingInterface := q.DelayingInterface.AddAfter item d }

/-- Promoted `Get`. -/
def rateLimitingType.Get (q : rateLimitingType α σ) :
    rateLimitingType α σ × GetResult α :=
  let p := q.DelayingInterface.Get
  ({ q with DelayingInterface := p.1 }, p.2)

/-- Promoted `Done`. -/
def rateLimitingType.Done (q : rateLimitingType α σ) (item : α) :
    rateLimitingType α σ :=
  { q with DelayingInterface := q.DelayingInterface.Done item }

/-- Promoted `Len`. -/
def rateLimitingType.Len (q : rateLimitingType α σ) : Nat :=
  q.DelayingInterface.Len

/-- Promoted `ShutDown`. -/
def rateLimitingType.ShutDown (q : rateLimitingType α σ) :
    rateLimitingType α σ :=
  { q with DelayingInterface := q.DelayingInterface.ShutDown }

/-- Promoted `ShutDownWithDrain`. -/
def rateLimitingType.ShutDownWithDrain (q : rateLimitingType α σ) :
    rateLimitingType α σ :=
  { q with DelayingInterface := q.DelayingInterface.ShutDownWithDrain }

/-- Promoted `ShuttingDown`. -/
def rateLimitingType.ShuttingDown (q : rateLimitingType α σ) : Bool :=
  q.DelayingInterface.ShuttingDown

/-! ## A standard counting strategy

Modelled from the spec: the end-to-end scenario of §8 plugs in "a
counting rate limiter (`When` returns `count * 1s`, `NumRequeues`
returns `count`)", the counter incremented once per `When` call and
dropped by `Forget`.  State: an association list item ↦ count. -/

/-- Per-item retry counts of the counting strategy. -/
abbrev CountingState (α : Type) := List (α × Nat)

/-- Current count for an item (0 when untracked). -/
def countGet (s : CountingState α) (x : α) : Nat :=
  match s.find? (fun p => decide (p.1 = x)) with
  | some p => p.2
  | none => 0

/-- Store a count for an item. -/
def countSet (s : CountingState α) (x : α) (n : Nat) : CountingState α :=
  (x, n) :: s.filter (fun p => decide (p.1 ≠ x))

/-- Modelled from the spec: the counting rate limiter of §8. -/
def countingRateLimiter (α : Type) [DecidableEq α] :
    RateLimiter α (CountingState α) where
  When := fun s x =>
    let c := countGet s x + 1
    (countSet s x c, (c : Int) * second)
  NumRequeues := fun s x => (countGet s x : Int)
  Forget := fun s x => s.filter (fun p => decide (p.1 ≠ x))

/-- The empty delaying queue at clock 0. -/
def emptyDelayingQueue (α : Type) : DelayingQueue α :=
  { now := 0, queue := [], dirty := [], processing := [], waiting := [],
    shuttingDown := false, drain := false }

/-! ## Construction (source lines 37-99)

The clock and metrics collaborators are opaque at this layer: a clock is
either the real wall clock or an injected one, and a metrics provider is
identified abstractly.  `NewDelayingQueueWithConfig` is declared
elsewhere in the repository, so the delaying queue held by a freshly
constructed rate-limiting queue is represented by a descriptor recording
how it was obtained. -/

/-- A clock source: the real wall clock, or an injected (fake) clock. -/
inductive ClockModel where
  | realClock
  | injected (id : Nat)
  deriving DecidableEq

/-- How the delaying queue of a constructed rate-limiting queue was
obtained: supplied by the caller, or default-constructed from a name, an
optional metrics provider and a clock. -/
inductive DelayingQueueDesc where
  | supplied (id : Nat)
  | defaultQueue (name : String) (metricsProvider : Option Nat) (clk : ClockModel)
  deriving DecidableEq

/-- Modelled from the spec: `NewDelayingQueueWithConfig` (declared
outside the given source) builds a default delaying queue from the
name, metrics provider and clock of its config (source lines 71-75). -/
def NewDelayingQueueWithConfig (name : String) (metricsProvider : Option Nat)
    (clk : ClockModel) : DelayingQueueDesc :=
  .defaultQueue name metricsProvider clk

/-- `RateLimitingQueueConfig` (source lines 39-52).  Go's nil interface
fields become `Option`; the zero value has every field unset. -/
structure RateLimitingQueueConfig where
  Name : String
  MetricsProvider : Option Nat
  Clock : Option ClockModel
  DelayingQueue : Option DelayingQueueDesc
  deriving DecidableEq

/-- The Go zero value `RateLimitingQueueConfig{}`. -/
def RateLimitingQueueConfig.zero : RateLimitingQueueConfig :=
  { Name := "", MetricsProvider := none, Clock := none, DelayingQueue := none }

/-- A freshly constructed rate-limiting queue, as the constructors
return it: the delaying queue it embeds and the rate limiter (of some
abstract type `ρ`) it holds. -/
structure ConstructedQueue (ρ : Type) where
  DelayingInterface : DelayingQueueDesc
  rateLimiter : ρ

/-- The clock defaulting step of `NewRateLimitingQueueWithConfig`
(source lines 66-68): an unset clock becomes the real wall clock. -/
def resolveClock (c : Option ClockModel) : ClockModel :=
  match c with
  | none => ClockModel.realClock
  | some clk => clk

/-- `NewRateLimitingQueueWithConfig` (source lines 65-82): default the
clock, then default the delaying queue from the same name, metrics
provider and (resolved) clock, then wrap. -/
def NewRateLimitingQueueWithConfig {ρ : Type} (rateLimiter : ρ)
    (config : RateLimitingQueueConfig) : ConstructedQueue ρ :=
  let clk := resolveClock config.Clock
  let dq := match config.DelayingQueue with
    | none => NewDelayingQueueWithConfig config.Name config.MetricsProvider clk
    | some d => d
  { DelayingInterface := dq, rateLimiter := rateLimiter }

/-- `NewRateLimitingQueue` (source lines 58-60). -/
def NewRateLimitingQueue {ρ : Type} (rateLimiter : ρ) : ConstructedQueue ρ :=
  NewRateLimitingQueueWithConfig rateLimiter RateLimitingQueueConfig.zero

/-- `NewNamedRateLimitingQueue` (source lines 86-90). -/
def NewNamedRateLimitingQueue {ρ : Type} (rateLimiter : ρ) (name : String) :
    ConstructedQueue ρ :=
  NewRateLimitingQueueWithConfig rateLimiter
    { RateLimitingQueueConfig.zero with Name := name }

/-- `NewRateLimitingQueueWithDelayingInterface` (source lines 95-99). -/
def NewRateLimitingQueueWithDelayingInterface {ρ : Type}
    (di : DelayingQueueDesc) (rateLimiter : ρ) : ConstructedQueue ρ :=
  NewRateLimitingQueueWithConfig rateLimiter
    { RateLimitingQueueConfig.zero with DelayingQueue := some di }

/-! ## Operation alphabet and runs

A history of operations against a rate-limiting queue (plus clock
advances of the injected clock), used to quantify over "every prior
history" and "never becomes observable". -/

/-- One operation against the queue (or a clock advance). -/
inductive Op (α : Type) where
  | add (x : α)
  | addAfter (x : α) (d : Duration)
  | addRateLimited (x : α)
  | get
  | done (x : α)
  | forget (x : α)
  | numRequeues (x : α)
  | shutDown
  | shutDownWithDrain
  | advanceTo (t : Int)

/-- State transition of one operation. -/
def step (rl : RateLimiter α σ) (q : rateLimitingType α σ) :
    Op α → rateLimitingType α σ
  | .add x => q.Add x
  | .addAfter x d => q.AddAfter x d
  | .addRateLimited x => rateLimitingType.AddRateLimited rl q x
  | .get => q.Get.1
  | .done x => q.Done x
  | .forget x => rateLimitingType.Forget rl q x
  | .numRequeues x => (rateLimitingType.NumRequeues rl q x).1
  | .shutDown => q.ShutDown
  | .shutDownWithDrain => q.ShutDownWithDrain
  | .advanceTo t =>
      { q with DelayingInterface := q.DelayingInterface.advanceTo t }

/-- Run a whole history of operations. -/
def run (rl : RateLimiter α σ) (ops : List (Op α))
    (q : rateLimitingType α σ) : rateLimitingType α σ :=
  ops.foldl (step rl) q

/-- `x` occurs nowhere in the delaying queue: not visible, not in the
dedup set, not in flight, not scheduled.  Such an item can never be
returned by `Get`. -/
def DelayingQueue.absent (q : DelayingQueue α) (x : α) : Prop :=
  x ∉ q.queue ∧ x ∉ q.dirty ∧ x ∉ q.processing ∧ ∀ p ∈ q.waiting, p.1 ≠ x

/-! ## Basic facts about the counting strategy -/

/-- Reading back a freshly stored count. -/
theorem countGet_countSet (s : CountingState α) (x : α) (n : Nat) :
    countGet (countSet s x n) x = n := by
  simp [countGet, countSet, List.find?]

/-- An item filtered out of the counting state is reported as 0. -/
theorem countGet_filter_out (s : CountingState α) (x : α) :
    countGet (s.filter (fun p => decide (p.1 ≠ x))) x = 0 := by
  have h : (s.filter (fun p => decide (p.1 ≠ x))).find?
      (fun p => decide (p.1 = x)) = none := by
    rw [List.find?_eq_none]
    intro p hp
    have := (List.mem_filter.mp hp).2
    simpa using this
  unfold countGet
  rw [h]

/-- The counting strategy increments the reported count once per
`When` call. -/
theorem countingRateLimiter_increments (s : CountingState α) (x : α) :
    (countingRateLimiter α).NumRequeues
        (((countingRateLimiter α).When s x).1) x
      = (countingRateLimiter α).NumRequeues s x + 1 := by
  simp [countingRateLimiter, countGet_countSet]

/-- The counting strategy's `Forget` resets the reported count to 0. -/
theorem countingRateLimiter_forget_baseline (s : CountingState α) (x : α) :
    (countingRateLimiter α).NumRequeues ((countingRateLimiter α).Forget s x) x
      = 0 := by
  show ((countGet (s.filter (fun p => decide (p.1 ≠ x))) x : Nat) : Int) = 0
  rw [countGet_filter_out]
  rfl

/-! ## Frame lemmas about the delaying queue's `Add` -/

/-- A shutting-down queue absorbs `Add` entirely. -/
theorem DelayingQueue.Add_of_shuttingDown {q : DelayingQueue α} (y : α)
    (h : q.shuttingDown = true) : q.Add y = q := by
  unfold DelayingQueue.Add
  simp [h]

/-- A shutting-down queue absorbs `AddAfter` entirely. -/
theorem DelayingQueue.AddAfter_of_shuttingDown {q : DelayingQueue α}
    (y : α) (d : Duration) (h : q.shuttingDown = true) : q.AddAfter y d = q := by
  unfold DelayingQueue.AddAfter
  simp [h]

/-- `Add` never touches the processing set. -/
theorem DelayingQueue.Add_processing (q : DelayingQueue α) (y : α) :
    (q.Add y).processing = q.processing := by
  unfold DelayingQueue.Add
  split_ifs <;> rfl

/-- `Add` never touches the shutdown flag. -/
theorem DelayingQueue.Add_shuttingDown (q : DelayingQueue α) (y : α) :
    (q.Add y).shuttingDown = q.shuttingDown := by
  unfold DelayingQueue.Add
  split_ifs <;> rfl

/-- `Add` never touches the waiting set. -/
theorem DelayingQueue.Add_waiting (q : DelayingQueue α) (y : α) :
    (q.Add y).waiting = q.waiting := by
  unfold DelayingQueue.Add
  split_ifs <;> rfl

/-- `Add` only ever appends to the visible queue. -/
theorem DelayingQueue.mem_Add_queue_of_mem {q : DelayingQueue α} {x : α}
    (y : α) (h : x ∈ q.queue) : x ∈ (q.Add y).queue := by
  unfold DelayingQueue.Add
  split_ifs <;> simp [h]

/-- `Add`ing a different item cannot make `x` visible. -/
theorem DelayingQueue.not_mem_Add_queue_of_ne {q : DelayingQueue α} {x y : α}
    (hne : y ≠ x) (h : x ∉ q.queue) : x ∉ (q.Add y).queue := by
  have hxy : ¬ x = y := fun hx => hne hx.symm
  unfold DelayingQueue.Add
  split_ifs <;> simp [h, hxy]

/-- `Add`ing a different item cannot put `x` into the dedup set. -/
theorem DelayingQueue.not_mem_Add_dirty_of_ne {q : DelayingQueue α} {x y : α}
    (hne : y ≠ x) (h : x ∉ q.dirty) : x ∉ (q.Add y).dirty := by
  have hxy : ¬ x = y := fun hx => hne hx.symm
  unfold DelayingQueue.Add
  split_ifs <;> simp [h, hxy]

/-- On a live queue, `Add` makes a fresh item visible. -/
theorem DelayingQueue.mem_Add_queue_self {q : DelayingQueue α} {x : α}
    (hsd : q.shuttingDown = false) (hd : x ∉ q.dirty) (hp : x ∉ q.processing) :
    x ∈ (q.Add x).queue := by
  unfold DelayingQueue.Add
  simp [hsd, hd, hp]

/-- Visibility is preserved by any sequence of `Add`s. -/
theorem DelayingQueue.foldl_Add_mem_queue {x : α} (l : List α) :
    ∀ q : DelayingQueue α, x ∈ q.queue →
      x ∈ (l.foldl DelayingQueue.Add q).queue := by
  induction l with
  | nil => intro q h; exact h
  | cons y t ih =>
      intro q h
      exact ih (q.Add y) (DelayingQueue.mem_Add_queue_of_mem y h)

/-- A sequence of `Add`s of other items cannot make `x` visible. -/
theorem DelayingQueue.foldl_Add_not_mem_queue {x : α} (l : List α) :
    ∀ q : DelayingQueue α, (∀ y ∈ l, y ≠ x) → x ∉ q.queue →
      x ∉ (l.foldl DelayingQueue.Add q).queue := by
  induction l with
  | nil => intro q _ h; exact h
  | cons y t ih =>
      intro q hl h
      exact ih (q.Add y) (fun z hz => hl z (List.mem_cons_of_mem y hz))
        (DelayingQueue.not_mem_Add_queue_of_ne (hl y (List.mem_cons_self y t)) h)

/-- If a live queue `Add`s a list containing `x`, and `x` starts outside
the dedup and processing sets, then `x` ends up visible. -/
theorem DelayingQueue.foldl_Add_mem_self {x : α} (l : List α) :
    ∀ q : DelayingQueue α, q.shuttingDown = false → x ∉ q.dirty →
      x ∉ q.processing → x ∈ l → x ∈ (l.foldl DelayingQueue.Add q).queue := by
  induction l with
  | nil => intro q _ _ _ hx; cases hx
  | cons y t ih =>
      intro q hsd hd hp hx
      by_cases hyx : y = x
      · subst hyx
        exact DelayingQueue.foldl_Add_mem_queue t (q.Add y)
          (DelayingQueue.mem_Add_queue_self hsd hd hp)
      · have hx' : x ∈ t := by
          cases List.mem_cons.mp hx with
          | inl h => exact absurd h.symm hyx
          | inr h => exact h
        exact ih (q.Add y)
          ((DelayingQueue.Add_shuttingDown q y).trans hsd)
          (DelayingQueue.not_mem_Add_dirty_of_ne hyx hd)
          ((DelayingQueue.Add_processing q y).symm ▸ hp)
          hx'

/-- A shutting-down queue absorbs any sequence of `Add`s. -/
theorem DelayingQueue.foldl_Add_of_shuttingDown (l : List α) :
    ∀ q : DelayingQueue α, q.shuttingDown = true →
      l.foldl DelayingQueue.Add q = q := by
  induction l with
  | nil => intro q _; rfl
  | cons y t ih =>
      intro q h
      rw [List.foldl_cons, DelayingQueue.Add_of_shuttingDown y h, ih q h]

/-! ## Absence of an item, and its preservation after shutdown -/

/-- `Get` cannot create occurrences of an absent item. -/
theorem DelayingQueue.absent_Get {q : DelayingQueue α} {x : α}
    (habs : q.absent x) :
    (q.Get.1).absent x ∧ q.Get.1.shuttingDown = q.shuttingDown := by
  obtain ⟨hq, hd, hp, hw⟩ := habs
  cases hqq : q.queue with
  | nil =>
      have h1 : q.Get.1 = q := by simp [DelayingQueue.Get, hqq]
      rw [h1]
      exact ⟨⟨hq, hd, hp, hw⟩, rfl⟩
  | cons y rest =>
      have hqy : x ∉ y :: rest := hqq ▸ hq
      refine ⟨⟨?_, ?_, ?_, ?_⟩, ?_⟩
      · simp only [DelayingQueue.Get, hqq]
        exact fun hmem => hqy (List.mem_cons_of_mem y hmem)
      · simp only [DelayingQueue.Get, hqq]
        exact fun hmem => hd (List.mem_of_mem_filter hmem)
      · simp only [DelayingQueue.Get, hqq]
        intro hmem
        cases List.mem_cons.mp hmem with
        | inl hxy => exact hqy (hxy ▸ List.mem_cons_self y rest)
        | inr hmem => exact hp hmem
      · simp only [DelayingQueue.Get, hqq]
        exact hw
      · simp only [DelayingQueue.Get, hqq]

/-- Explicit form of `Done`: filter the processing set, and re-queue the
item when it was re-added while in flight. -/
theorem DelayingQueue.Done_eq (q : DelayingQueue α) (y : α) :
    q.Done y = { q with
      processing := q.processing.filter (fun z => decide (z ≠ y)),
      queue := if y ∈ q.dirty then q.queue ++ [y] else q.queue } := by
  unfold DelayingQueue.Done
  split_ifs <;> rfl

/-- `Done` cannot create occurrences of an absent item. -/
theorem DelayingQueue.absent_Done {q : DelayingQueue α} {x : α} (y : α)
    (habs : q.absent x) :
    (q.Done y).absent x ∧ (q.Done y).shuttingDown = q.shuttingDown := by
  obtain ⟨hq, hd, hp, hw⟩ := habs
  rw [DelayingQueue.Done_eq]
  refine ⟨⟨?_, hd, ?_, hw⟩, rfl⟩
  · by_cases hy : y ∈ q.dirty
    · have hyx : ¬ x = y := fun hxy => hd (hxy ▸ hy)
      simp [hy, List.mem_append, hq, hyx]
    · simpa [hy] using hq
  · exact fun hmem => hp (List.mem_of_mem_filter hmem)

/-- After shutdown, advancing the clock delivers nothing: due items are
discarded, the rest stay scheduled. -/
theorem DelayingQueue.advanceTo_of_shuttingDown {q : DelayingQueue α}
    (t : Int) (hsd : q.shuttingDown = true) :
    q.advanceTo t = { q with
      now := t,
      waiting := q.waiting.filter (fun p => decide (¬ p.2 ≤ t)) } := by
  unfold DelayingQueue.advanceTo DelayingQueue.deliverDue
  exact DelayingQueue.foldl_Add_of_shuttingDown _ _ hsd

/-- After shutdown, advancing the clock cannot create occurrences of an
absent item. -/
theorem DelayingQueue.absent_advanceTo_of_shuttingDown {q : DelayingQueue α}
    {x : α} (t : Int) (hsd : q.shuttingDown = true) (habs : q.absent x) :
    (q.advanceTo t).absent x ∧ (q.advanceTo t).shuttingDown = true := by
  obtain ⟨hq, hd, hp, hw⟩ := habs
  rw [DelayingQueue.advanceTo_of_shuttingDown t hsd]
  refine ⟨⟨hq, hd, hp, ?_⟩, hsd⟩
  intro p hmem
  exact hw p (List.mem_of_mem_filter hmem)

/-- One step of any operation on a shut-down queue keeps the queue shut
down and keeps an absent item absent. -/
theorem step_preserves_shutdown_absent (rl : RateLimiter α σ)
    (q : rateLimitingType α σ) (x : α) (op : Op α)
    (hsd : q.DelayingInterface.shuttingDown = true)
    (habs : q.DelayingInterface.absent x) :
    (step rl q op).DelayingInterface.shuttingDown = true ∧
    (step rl q op).DelayingInterface.absent x := by
  cases op with
  | add y =>
      simpa [step, rateLimitingType.Add,
        DelayingQueue.Add_of_shuttingDown y hsd] using ⟨hsd, habs⟩
  | addAfter y d =>
      simpa [step, rateLimitingType.AddAfter,
        DelayingQueue.AddAfter_of_shuttingDown y d hsd] using ⟨hsd, habs⟩
  | addRateLimited y =>
      simpa [step, rateLimitingType.AddRateLimited,
        DelayingQueue.AddAfter_of_shuttingDown y _ hsd] using ⟨hsd, habs⟩
  | get =>
      have h := DelayingQueue.absent_Get habs
      exact ⟨h.2.trans hsd, h.1⟩
  | done y =>
      have h := DelayingQueue.absent_Done y habs
      exact ⟨h.2.trans hsd, h.1⟩
  | forget y => exact ⟨hsd, habs⟩
  | numRequeues y => exact ⟨hsd, habs⟩
  | shutDown =>
      obtain ⟨hq, hd, hp, hw⟩ := habs
      exact ⟨rfl, hq, hd, hp, hw⟩
  | shutDownWithDrain =>
      obtain ⟨hq, hd, hp, hw⟩ := habs
      exact ⟨rfl, hq, hd, hp, hw⟩
  | advanceTo t =>
      have h := DelayingQueue.absent_advanceTo_of_shuttingDown t hsd habs
      exact ⟨h.2, h.1⟩

/-- A whole run on a shut-down queue keeps the queue shut down and keeps
an absent item absent. -/
theorem run_preserves_shutdown_absent (rl : RateLimiter α σ)
    (ops : List (Op α)) :
    ∀ q : rateLimitingType α σ, ∀ x : α,
      q.DelayingInterface.shuttingDown = true →
      q.DelayingInterface.absent x →
      (run rl ops q).DelayingInterface.shuttingDown = true ∧
      (run rl ops q).DelayingInterface.absent x := by
  induction ops with
  | nil => intro q x hsd habs; exact ⟨hsd, habs⟩
  | cons op t ih =>
      intro q x hsd habs
      have h := step_preserves_shutdown_absent rl q x op hsd habs
      exact ih (step rl q op) x h.1 h.2

/-! ## Delivery of scheduled items when the clock advances -/

/-- Unfolded form of `advanceTo`: the due items are `Add`ed in order to
the state whose clock reads `t` and whose waiting set keeps the rest. -/
theorem DelayingQueue.advanceTo_eq (q : DelayingQueue α) (t : Int) :
    q.advanceTo t =
      ((q.waiting.filter (fun p => decide (p.2 ≤ t))).map Prod.fst).foldl
        DelayingQueue.Add
        { q with
          now := t,
          waiting := q.waiting.filter (fun p => decide (¬ p.2 ≤ t)) } := rfl

/-- An invisible item stays invisible across a clock advance as long as
no due scheduled entry carries it. -/
theorem DelayingQueue.advanceTo_not_mem {q : DelayingQueue α} {x : α}
    (t : Int) (hq : x ∉ q.queue)
    (hw : ∀ p ∈ q.waiting, p.2 ≤ t → p.1 ≠ x) :
    x ∉ (q.advanceTo t).queue := by
  rw [DelayingQueue.advanceTo_eq]
  apply DelayingQueue.foldl_Add_not_mem_queue
  · intro y hy
    obtain ⟨p, hp, hfst⟩ := List.mem_map.mp hy
    have h1 := List.mem_of_mem_filter hp
    have h2 : p.2 ≤ t := by simpa using (List.mem_filter.mp hp).2
    exact hfst ▸ hw p h1 h2
  · exact hq

/-- A visible item stays visible across a clock advance. -/
theorem DelayingQueue.advanceTo_mem_of_mem {q : DelayingQueue α} {x : α}
    (t : Int) (hx : x ∈ q.queue) : x ∈ (q.advanceTo t).queue := by
  rw [DelayingQueue.advanceTo_eq]
  exact DelayingQueue.foldl_Add_mem_queue _ _ hx

/-- On a live queue, a scheduled entry that has come due makes its item
visible once the clock advances, provided the item is not held back by
the dedup or processing sets. -/
theorem DelayingQueue.advanceTo_mem_of_due {q : DelayingQueue α} {x : α}
    (c t : Int) (hsd : q.shuttingDown = false) (hd : x ∉ q.dirty)
    (hp : x ∉ q.processing) (hmem : (x, c) ∈ q.waiting) (hc : c ≤ t) :
    x ∈ (q.advanceTo t).queue := by
  rw [DelayingQueue.advanceTo_eq]
  apply DelayingQueue.foldl_Add_mem_self
  · exact hsd
  · exact hd
  · exact hp
  · exact List.mem_map.mpr
      ⟨(x, c), List.mem_filter.mpr ⟨hmem, by simpa using hc⟩, rfl⟩

/-! ## The claims -/

/-- C1: `AddRateLimited(item)` queries the rate limiter's `When(item)`
exactly once and passes the returned duration to the delaying queue's
`AddAfter(item, d)`, performing no other state change of its own: the
resulting state is exactly `AddAfter` applied to the delaying queue
together with the post-`When` limiter state. -/
theorem AddRateLimited_is_When_then_AddAfter (rl : RateLimiter α σ)
    (q : rateLimitingType α σ) (item : α) :
    rateLimitingType.AddRateLimited rl q item =
      { DelayingInterface :=
          q.DelayingInterface.AddAfter item (rl.When q.rateLimiter item).2,
        rateLimiter := (rl.When q.rateLimiter item).1 } := rfl

/-- C2: `NumRequeues(item)` returns exactly what the current rate
limiter reports for the item and changes no state: the returned queue
state is the input state, and the limiter is consulted through its
side-effect-free read. -/
theorem NumRequeues_is_pure_delegation (rl : RateLimiter α σ)
    (q : rateLimitingType α σ) (item : α) :
    rateLimitingType.NumRequeues rl q item =
      (q, rl.NumRequeues q.rateLimiter item) := rfl

/-- C3: for every item and every state however it was reached, after
`Forget(x)` the reported `NumRequeues(x)` is the strategy's baseline 0
(shown for the standard counting strategy), regardless of the prior
count. -/
theorem Forget_resets_NumRequeues (q : rateLimitingType α (CountingState α))
    (x : α) :
    (rateLimitingType.NumRequeues (countingRateLimiter α)
      (rateLimitingType.Forget (countingRateLimiter α) q x) x).2 = 0 := by
  show ((countGet (q.rateLimiter.filter (fun p => decide (p.1 ≠ x))) x : Nat)
      : Int) = 0
  rw [countGet_filter_out]
  rfl

/-- C4: every queue operation other than `AddRateLimited`, `Forget` and
`NumRequeues` — `Add`, `AddAfter`, `Get`, `Done`, `Len`, `ShutDown`,
`ShutDownWithDrain`, `ShuttingDown` — is the same as invoking the
operation directly on the embedded delaying queue: same result, same
delaying-queue state change, and the rate limiter state untouched. -/
theorem passthrough_operations_delegate (q : rateLimitingType α σ) (item : α)
    (d : Duration) :
    (rateLimitingType.Add q item).DelayingInterface
        = q.DelayingInterface.Add item
    ∧ (rateLimitingType.Add q item).rateLimiter = q.rateLimiter
    ∧ (rateLimitingType.AddAfter q item d).DelayingInterface
        = q.DelayingInterface.AddAfter item d
    ∧ (rateLimitingType.AddAfter q item d).rateLimiter = q.rateLimiter
    ∧ (rateLimitingType.Get q).1.DelayingInterface = q.DelayingInterface.Get.1
    ∧ (rateLimitingType.Get q).2 = q.DelayingInterface.Get.2
    ∧ (rateLimitingType.Get q).1.rateLimiter = q.rateLimiter
    ∧ (rateLimitingType.Done q item).DelayingInterface
        = q.DelayingInterface.Done item
    ∧ (rateLimitingType.Done q item).rateLimiter = q.rateLimiter
    ∧ rateLimitingType.Len q = q.DelayingInterface.Len
    ∧ (rateLimitingType.ShutDown q).DelayingInterface
        = q.DelayingInterface.ShutDown
    ∧ (rateLimitingType.ShutDown q).rateLimiter = q.rateLimiter
    ∧ (rateLimitingType.ShutDownWithDrain q).DelayingInterface
        = q.DelayingInterface.ShutDownWithDrain
    ∧ (rateLimitingType.ShutDownWithDrain q).rateLimiter = q.rateLimiter
    ∧ rateLimitingType.ShuttingDown q = q.DelayingInterface.ShuttingDown :=
  ⟨rfl, rfl, rfl, rfl, rfl, rfl, rfl, rfl, rfl, rfl, rfl, rfl, rfl, rfl, rfl⟩

/-- C8: `Forget(item)` changes only the rate limiter's state — it
applies the limiter's own `Forget` there — and leaves the delaying
queue's state entirely unchanged. -/
theorem Forget_frame (rl : RateLimiter α σ) (q : rateLimitingType α σ)
    (item : α) :
    (rateLimitingType.Forget rl q item).DelayingInterface = q.DelayingInterface
    ∧ (rateLimitingType.Forget rl q item).rateLimiter
        = rl.Forget q.rateLimiter item :=
  ⟨rfl, rfl⟩

/-- C9: at construction, an unset clock defaults to the real wall
clock; an unset delaying queue is default-constructed from the same
name, metrics provider and (resolved) clock; a supplied delaying queue
is used as-is; and the given rate limiter is stored unchanged. -/
theorem construction_defaults {ρ : Type} (rl : ρ) (name : String)
    (mp : Option Nat) (c : ClockModel) (oc : Option ClockModel)
    (dd : DelayingQueueDesc) (cfg : RateLimitingQueueConfig) :
    resolveClock none = ClockModel.realClock
    ∧ resolveClock (some c) = c
    ∧ (NewRateLimitingQueueWithConfig rl
        { Name := name, MetricsProvider := mp, Clock := none,
          DelayingQueue := none }).DelayingInterface
        = NewDelayingQueueWithConfig name mp ClockModel.realClock
    ∧ (NewRateLimitingQueueWithConfig rl
        { Name := name, MetricsProvider := mp, Clock := some c,
          DelayingQueue := none }).DelayingInterface
        = NewDelayingQueueWithConfig name mp c
    ∧ (NewRateLimitingQueueWithConfig rl
        { Name := name, MetricsProvider := mp, Clock := oc,
          DelayingQueue := some dd }).DelayingInterface = dd
    ∧ (NewRateLimitingQueueWithConfig rl cfg).rateLimiter = rl := by
  refine ⟨rfl, rfl, rfl, rfl, ?_, rfl⟩
  cases oc <;> rfl

/-- C10: each convenience constructor equals
`NewRateLimitingQueueWithConfig` at the corresponding configuration:
the zero config, the config with only `Name` set, and the config with
only `DelayingQueue` set. -/
theorem convenience_constructors_eq {ρ : Type} (rl : ρ) (name : String)
    (di : DelayingQueueDesc) :
    NewRateLimitingQueue rl
        = NewRateLimitingQueueWithConfig rl RateLimitingQueueConfig.zero
    ∧ NewNamedRateLimitingQueue rl name
        = NewRateLimitingQueueWithConfig rl
            { RateLimitingQueueConfig.zero with Name := name }
    ∧ NewRateLimitingQueueWithDelayingInterface di rl
        = NewRateLimitingQueueWithConfig rl
            { RateLimitingQueueConfig.zero with DelayingQueue := some di } :=
  ⟨rfl, rfl, rfl⟩

/-- C5: after `AddRateLimited(x)` on a live queue in which `x` occurs
nowhere, and with only the clock advancing thereafter, `x` is not
observable via `Get` (not in the visible queue) at any time strictly
before the duration returned by the limiter's `When(x)` has elapsed,
and `x` is observable at or after that point. -/
theorem AddRateLimited_delay_honored (rl : RateLimiter α σ)
    (q : rateLimitingType α σ) (x : α) (t : Int)
    (hsd : q.DelayingInterface.shuttingDown = false)
    (hq : x ∉ q.DelayingInterface.queue)
    (hd : x ∉ q.DelayingInterface.dirty)
    (hp : x ∉ q.DelayingInterface.processing)
    (hw : ∀ p ∈ q.DelayingInterface.waiting, p.1 ≠ x)
    (hnow : q.DelayingInterface.now ≤ t) :
    (t < q.DelayingInterface.now + (rl.When q.rateLimiter x).2 →
      x ∉ ((rateLimitingType.AddRateLimited rl q x).DelayingInterface.advanceTo
            t).queue)
    ∧ (q.DelayingInterface.now + (rl.When q.rateLimiter x).2 ≤ t →
      x ∈ ((rateLimitingType.AddRateLimited rl q x).DelayingInterface.advanceTo
            t).queue) := by
  constructor
  · intro hlt
    by_cases hpos : (rl.When q.rateLimiter x).2 ≤ 0
    · exfalso
      have hc : (rl.When q.rateLimiter x).2 ≤ 0 := hpos
      linarith
    · have hAA : q.DelayingInterface.AddAfter x (rl.When q.rateLimiter x).2 =
          { q.DelayingInterface with
            waiting := q.DelayingInterface.waiting ++
              [(x, q.DelayingInterface.now + (rl.When q.rateLimiter x).2)] } := by
        unfold DelayingQueue.AddAfter
        simp [hsd, hpos]
      show x ∉ ((q.DelayingInterface.AddAfter x
          (rl.When q.rateLimiter x).2).advanceTo t).queue
      rw [hAA]
      refine DelayingQueue.advanceTo_not_mem t hq ?_
      intro p hmem hple
      rcases List.mem_append.mp hmem with hold | hnew
      · exact hw p hold
      · exfalso
        have hpx : p = (x, q.DelayingInterface.now +
            (rl.When q.rateLimiter x).2) := by simpa using hnew
        rw [hpx] at hple
        have h2 : q.DelayingInterface.now + (rl.When q.rateLimiter x).2 ≤ t :=
          hple
        omega
  · intro hge
    by_cases hpos : (rl.When q.rateLimiter x).2 ≤ 0
    · have hAA : q.DelayingInterface.AddAfter x (rl.When q.rateLimiter x).2 =
          q.DelayingInterface.Add x := by
        unfold DelayingQueue.AddAfter
        simp [hsd, hpos]
      show x ∈ ((q.DelayingInterface.AddAfter x
          (rl.When q.rateLimiter x).2).advanceTo t).queue
      rw [hAA]
      exact DelayingQueue.advanceTo_mem_of_mem t
        (DelayingQueue.mem_Add_queue_self hsd hd hp)
    · have hAA : q.DelayingInterface.AddAfter x (rl.When q.rateLimiter x).2 =
          { q.DelayingInterface with
            waiting := q.DelayingInterface.waiting ++
              [(x, q.DelayingInterface.now + (rl.When q.rateLimiter x).2)] } := by
        unfold DelayingQueue.AddAfter
        simp [hsd, hpos]
      show x ∈ ((q.DelayingInterface.AddAfter x
          (rl.When q.rateLimiter x).2).advanceTo t).queue
      rw [hAA]
      exact DelayingQueue.advanceTo_mem_of_due
        (q.DelayingInterface.now + (rl.When q.rateLimiter x).2) t hsd hd hp
        (List.mem_append_right _ (List.mem_singleton.mpr rfl)) hge

/-- Projection of `AddRateLimited`: the limiter state becomes the
post-`When` state. -/
theorem AddRateLimited_rateLimiter (rl : RateLimiter α σ)
    (q : rateLimitingType α σ) (x : α) :
    (rateLimitingType.AddRateLimited rl q x).rateLimiter
      = (rl.When q.rateLimiter x).1 := rfl

/-- Projection of `NumRequeues`: the answer comes from the limiter. -/
theorem NumRequeues_snd (rl : RateLimiter α σ) (q : rateLimitingType α σ)
    (x : α) :
    (rateLimitingType.NumRequeues rl q x).2
      = rl.NumRequeues q.rateLimiter x := rfl

/-- Projection of `Forget`: the limiter state becomes the forgotten
state. -/
theorem Forget_rateLimiter (rl : RateLimiter α σ) (q : rateLimitingType α σ)
    (x : α) :
    (rateLimitingType.Forget rl q x).rateLimiter
      = rl.Forget q.rateLimiter x := rfl

/-- C6: for a rate limiter strategy that increments the per-item count
once per `When` call and whose `Forget` resets it, `n` calls of
`AddRateLimited(x)` after a `Forget(x)` (with no intervening
`Forget(x)`) leave `NumRequeues(x) = n`. -/
theorem NumRequeues_counts_AddRateLimited (rl : RateLimiter α σ)
    (hinc : ∀ s y, rl.NumRequeues (rl.When s y).1 y = rl.NumRequeues s y + 1)
    (hbase : ∀ s y, rl.NumRequeues (rl.Forget s y) y = 0)
    (q : rateLimitingType α σ) (x : α) (n : Nat) :
    (rateLimitingType.NumRequeues rl
      ((fun q' => rateLimitingType.AddRateLimited rl q' x)^[n]
        (rateLimitingType.Forget rl q x)) x).2 = n := by
  induction n with
  | zero =>
      rw [Function.iterate_zero_apply, NumRequeues_snd, Forget_rateLimiter,
        hbase]
      simp
  | succ k ih =>
      rw [Function.iterate_succ_apply', NumRequeues_snd,
        AddRateLimited_rateLimiter, hinc]
      rw [NumRequeues_snd] at ih
      rw [ih]
      push_cast
      ring

/-- Witness for C6 at the counting strategy: three `AddRateLimited(5)`
calls after a `Forget(5)` on the empty queue report a count of 3. -/
theorem NumRequeues_counts_AddRateLimited_witness :
    (rateLimitingType.NumRequeues (countingRateLimiter Nat)
      ((fun q' =>
          rateLimitingType.AddRateLimited (countingRateLimiter Nat) q' 5)^[3]
        (rateLimitingType.Forget (countingRateLimiter Nat)
          { DelayingInterface := emptyDelayingQueue Nat, rateLimiter := [] }
          5)) 5).2 = ((3 : Nat) : Int) :=
  NumRequeues_counts_AddRateLimited (countingRateLimiter Nat)
    (fun s y => countingRateLimiter_increments s y)
    (fun s y => countingRateLimiter_forget_baseline s y)
    { DelayingInterface := emptyDelayingQueue Nat, rateLimiter := [] } 5 3

/-- C7: on a shut-down queue, `AddRateLimited(x)` is silently absorbed:
it is a total function (no error, no blocking) that leaves the delaying
queue's state exactly unchanged, and an item absent from the queue
never becomes observable via `Get` under any subsequent history of
operations. -/
theorem AddRateLimited_noop_after_shutdown (rl : RateLimiter α σ)
    (q : rateLimitingType α σ) (x : α) (ops : List (Op α))
    (hsd : q.DelayingInterface.shuttingDown = true)
    (habs : q.DelayingInterface.absent x) :
    (rateLimitingType.AddRateLimited rl q x).DelayingInterface
        = q.DelayingInterface
    ∧ x ∉ (run rl ops
        (rateLimitingType.AddRateLimited rl q x)).DelayingInterface.queue := by
  have heq : (rateLimitingType.AddRateLimited rl q x).DelayingInterface
      = q.DelayingInterface := by
    show q.DelayingInterface.AddAfter x (rl.When q.rateLimiter x).2
        = q.DelayingInterface
    exact DelayingQueue.AddAfter_of_shuttingDown x _ hsd
  refine ⟨heq, ?_⟩
  have h := run_preserves_shutdown_absent rl ops
    (rateLimitingType.AddRateLimited rl q x) x
    (by rw [heq]; exact hsd) (by rw [heq]; exact habs)
  exact h.2.1

/-- Witness for C7: on the shut-down empty queue, `AddRateLimited(7)`
changes nothing and `7` stays invisible across a clock advance, a `Get`
and a `Done`. -/
theorem AddRateLimited_noop_after_shutdown_witness :
    (rateLimitingType.AddRateLimited (countingRateLimiter Nat)
      { DelayingInterface := { emptyDelayingQueue Nat with shuttingDown := true },
        rateLimiter := [] } 7).DelayingInterface
      = { emptyDelayingQueue Nat with shuttingDown := true }
    ∧ 7 ∉ (run (countingRateLimiter Nat) [Op.advanceTo 10, Op.get, Op.done 7]
        (rateLimitingType.AddRateLimited (countingRateLimiter Nat)
          { DelayingInterface :=
              { emptyDelayingQueue Nat with shuttingDown := true },
            rateLimiter := [] } 7)).DelayingInterface.queue :=
  AddRateLimited_noop_after_shutdown (countingRateLimiter Nat)
    { DelayingInterface := { emptyDelayingQueue Nat with shuttingDown := true },
      rateLimiter := [] } 7 [Op.advanceTo 10, Op.get, Op.done 7] rfl
    (by simp [DelayingQueue.absent, emptyDelayingQueue])

/-- Witness for C5 at the counting strategy on the empty queue:
`When(5)` returns one second, and half a second after the add the item
is still invisible (the second implication is vacuous there). -/
theorem AddRateLimited_delay_honored_witness :
    (500000000 < (emptyDelayingQueue Nat).now
        + ((countingRateLimiter Nat).When ([] : CountingState Nat) 5).2 →
      5 ∉ (((rateLimitingType.AddRateLimited (countingRateLimiter Nat)
          { DelayingInterface := emptyDelayingQueue Nat, rateLimiter := [] }
          5).DelayingInterface).advanceTo 500000000).queue)
    ∧ ((emptyDelayingQueue Nat).now
        + ((countingRateLimiter Nat).When ([] : CountingState Nat) 5).2
          ≤ 500000000 →
      5 ∈ (((rateLimitingType.AddRateLimited (countingRateLimiter Nat)
          { DelayingInterface := emptyDelayingQueue Nat, rateLimiter := [] }
          5).DelayingInterface).advanceTo 500000000).queue) :=
  AddRateLimited_delay_honored (countingRateLimiter Nat)
    { DelayingInterface := emptyDelayingQueue Nat, rateLimiter := [] } 5
    500000000 rfl (List.not_mem_nil 5) (List.not_mem_nil 5)
    (List.not_mem_nil 5) (fun p hp => absurd hp (List.not_mem_nil p))
    (by decide)
